import Mathlib

/-!
Verification of the torqueindex ingestion-and-search service
(src/rust-service/src/main.rs) against its natural-language specification.

Rust strings are modelled as lists of Unicode scalar values (`Str := List Nat`);
all strings handled by the matching engine are ASCII after normalization, so
byte length and character count coincide.  Machine integers are modelled as
`Nat`/`Int` with explicit saturation/truncation where the source uses
saturating arithmetic.  Fallible operations return `Except`.
-/

namespace Torque

/-- A Rust string, as its sequence of Unicode scalar values. -/
abbrev Str := List Nat

/-- Helper to build a `Str` from Lean characters (used only for concrete inputs). -/
def lit (cs : List Char) : Str := cs.map Char.toNat

/-- Model of `char::is_ascii_alphanumeric` from the Rust standard library. -/
def is_ascii_alphanumeric (c : Nat) : Bool :=
  (48 ≤ c && c ≤ 57) || (65 ≤ c && c ≤ 90) || (97 ≤ c && c ≤ 122)

/-- Model of `char::is_ascii_alphabetic`. -/
def is_ascii_alphabetic (c : Nat) : Bool :=
  (65 ≤ c && c ≤ 90) || (97 ≤ c && c ≤ 122)

/-- Model of `char::is_ascii_digit`. -/
def is_ascii_digit (c : Nat) : Bool :=
  48 ≤ c && c ≤ 57

/-- Model of `char::to_ascii_lowercase`: shift an ASCII uppercase letter down by 32. -/
def to_ascii_lowercase (c : Nat) : Nat :=
  if 65 ≤ c ∧ c ≤ 90 then c + 32 else c

/-- Whitespace test used by `split_whitespace`/`trim`.  The ASCII whitespace
characters; every string this program splits has already been normalized, so
the only whitespace it can contain is the space 32. -/
def is_ws (c : Nat) : Bool :=
  c == 32 || (9 ≤ c && c ≤ 13)

/-- Model of `str::split_whitespace`: maximal runs of non-whitespace characters, in
order, empty runs dropped.  `cur` accumulates the current word reversed. -/
def words_go : Str → Str → List Str
  | cur, [] => if cur = [] then [] else [cur.reverse]
  | cur, c :: rest =>
    if is_ws c then
      if cur = [] then words_go [] rest
      else cur.reverse :: words_go [] rest
    else words_go (c :: cur) rest

/-- Model of `str::split_whitespace` collected to a list. -/
def words (s : Str) : List Str := words_go [] s

/-- Model of `Vec::join(" ")`: concatenate with a single space (32) between parts. -/
def join_space : List Str → Str
  | [] => []
  | [p] => p
  | p :: rest => p ++ 32 :: join_space rest

/-- Model of `str::replace(' ', "")`: drop every ASCII space. -/
def replace_spaces (s : Str) : Str := s.filter (fun c => decide (c ≠ 32))

/-- Model of `str::contains(&str)`: contiguous substring containment. -/
def str_contains (hay pat : Str) : Bool := decide (pat <:+: hay)

/-- Model of `str::eq_ignore_ascii_case`. -/
def eq_ignore_ascii_case (a b : Str) : Bool :=
  decide (a.map to_ascii_lowercase = b.map to_ascii_lowercase)

/-- Model of `str::trim` (ASCII whitespace suffices for this program's inputs). -/
def str_trim (s : Str) : Str :=
  ((s.dropWhile is_ws).reverse.dropWhile is_ws).reverse

/-- Model of `normalize_match_text` from the source: lowercase, collapse every maximal
run of non-alphanumeric characters to a single space, trim. -/
def normalize_match_text (s : Str) : Str :=
  join_space (words (s.map (fun c =>
    if is_ascii_alphanumeric c then to_ascii_lowercase c else 32)))

/-! ### Data model -/

/-- Model of `Store` (configuration entity). -/
structure Store where
  id : Str
  name : Str
  base_url : Str
  logo_url : Option Str
deriving DecidableEq

/-- Model of `ShopifyVariant`. -/
structure ShopifyVariant where
  price : Option Str
deriving DecidableEq

/-- Model of `ShopifyImage`. -/
structure ShopifyImage where
  src : Str
deriving DecidableEq

/-- Model of `ShopifyTags`: untagged union of a single comma-separated string or a list. -/
inductive ShopifyTags where
  | strForm (raw : Str)
  | arrForm (values : List Str)
deriving DecidableEq

/-- Model of `ShopifyProduct` (one upstream raw product). -/
structure ShopifyProduct where
  id : Int
  title : Str
  handle : Str
  vendor : Option Str
  product_type : Str
  tags : ShopifyTags
  images : List ShopifyImage
  variants : List ShopifyVariant
deriving DecidableEq

/-- Model of `NormalizedMod` (the canonical product record).  `price` is `f64` in the
source; it is modelled as `Rat` (no arithmetic is ever performed on it). -/
structure NormalizedMod where
  id : Str
  store_id : Str
  title : Str
  images : List Str
  price : Rat
  vendor : Str
  product_type : Str
  tags : List Str
  product_url : Str
deriving DecidableEq

/-- Model of `ScrapeStats`. -/
structure ScrapeStats where
  stores_total : Nat
  stores_succeeded : Nat
  stores_failed : Nat
  mods_upserted : Nat
deriving DecidableEq

/-- Model of `ModsQuery`: the three optional free-text filters. -/
structure ModsQuery where
  make : Option Str
  model : Option Str
  engine : Option Str
deriving DecidableEq

/-- Model of `AppError`. -/
inductive AppError where
  | notFound
  | upstream (msg : Str)
  | badRequest (msg : Str)
  | database (msg : Str)
deriving DecidableEq

/-! ### Normalizer -/

/-- Model of `normalize_tags`: string form split on commas, list form used directly;
both trimmed with empty results dropped. -/
def normalize_tags : ShopifyTags → List Str
  | .strForm raw =>
    ((raw.splitOn 44).map str_trim).filter (fun tag => !tag.isEmpty)
  | .arrForm values =>
    (values.map str_trim).filter (fun tag => !tag.isEmpty)

/-- Model of `extract_price`: the first variant whose `price` field is present is
selected (`find_map` over `price.as_ref()`), and only that value is offered to
the decimal parser.  The `f64` parser itself is not shallowly embeddable
(floating point), so it is abstracted as `pp : Str → Option Rat`; only its
success/failure and resulting value matter to the claims. -/
def extract_price (pp : Str → Option Rat) (variants : List ShopifyVariant) : Rat :=
  (((variants.findSome? (fun variant => variant.price)).bind
    (fun value => pp value)).getD 0)

/-- Decimal digits of a natural number, as character codes. -/
def nat_repr (n : Nat) : Str := (Nat.toDigits 10 n).map Char.toNat

/-- Model of `format!("{}", i)` for an `i64`. -/
def int_repr : Int → Str
  | .ofNat n => nat_repr n
  | .negSucc n => 45 :: nat_repr (n + 1)

/-- Model of `str::trim_end_matches('/')`. -/
def trim_end_slashes (s : Str) : Str :=
  (s.reverse.dropWhile (fun c => c == 47)).reverse

/-- The literal string `"Unknown"`. -/
def unknown_lit : Str := lit ['U', 'n', 'k', 'n', 'o', 'w', 'n']

/-- The literal string `"/products/"`. -/
def products_path_lit : Str :=
  lit ['/', 'p', 'r', 'o', 'd', 'u', 'c', 't', 's', '/']

/-- Model of `normalize_product`: pure mapping from one raw product to one canonical
record. -/
def normalize_product (pp : Str → Option Rat) (product : ShopifyProduct)
    (store : Store) : NormalizedMod :=
  { id := store.id ++ 58 :: int_repr product.id
    store_id := store.id
    title := product.title
    images := product.images.map (fun image => image.src)
    price := extract_price pp product.variants
    vendor := product.vendor.getD unknown_lit
    product_type := product.product_type
    tags := normalize_tags product.tags
    product_url := trim_end_slashes store.base_url ++ products_path_lit ++ product.handle }

/-! ### Rate-limited page fetcher: retry delay -/

/-- Model of `u64::MAX`, the saturation point of the source's `saturating_pow` and
`saturating_mul`. -/
def u64_max : Nat := 2 ^ 64 - 1

/-- Model of `retry_delay_for_429`, in milliseconds.  `retryAfterSecs` is the
`Retry-After` header value after `parse::<u64>()` (`none` when the header is
absent or unparseable); `base_ms` is `retry_base_delay.as_millis() as u64`. -/
def retry_delay_for_429 (retryAfterSecs : Option Nat) (base_ms : Nat)
    (attempt : Nat) : Nat :=
  match retryAfterSecs with
  | some seconds => 1000 * min (max seconds 1) 120
  | none =>
    let exp := min (2 ^ attempt) u64_max
    min (max (min (base_ms * exp) u64_max) 250) 30000

/-! ### Filter/search engine -/

/-- The parts vector both `build_search_haystacks` and `build_search_text`
assemble: normalized title, vendor, product_type and tags, empties dropped. -/
def build_search_haystacks (item : NormalizedMod) : List Str :=
  (([item.title, item.vendor, item.product_type].map normalize_match_text).filter
    (fun h => !h.isEmpty))
  ++ ((item.tags.map normalize_match_text).filter (fun h => !h.isEmpty))

/-- Model of `build_search_text`: the same parts, joined with a single space. -/
def build_search_text (item : NormalizedMod) : Str :=
  join_space (build_search_haystacks item)

/-- Model of `matches_simple_value`: some haystack contains the filter as a substring,
or some whitespace token of a haystack equals the filter ignoring ASCII case. -/
def matches_simple_value (haystacks : List Str) (filter_value : Str) : Bool :=
  haystacks.any (fun haystack =>
    str_contains haystack filter_value
      || (words haystack).any (fun token => eq_ignore_ascii_case token filter_value))

/-- Model of `token_has_letters_and_digits`. -/
def token_has_letters_and_digits (token : Str) : Bool :=
  token.any is_ascii_alphabetic && token.any is_ascii_digit

/-- The literal string `"series"`. -/
def series_lit : Str := lit ['s', 'e', 'r', 'i', 'e', 's']

/-- The meaningful-token test of the model filter: length at least 3 and not
the literal word `"series"` (token length is byte length in the source; the
normalized tokens are ASCII, so list length coincides). -/
def is_meaningful_token (token : Str) : Bool :=
  decide (3 ≤ token.length) && !(token == series_lit)

/-- Model of `matches_model_filter`. -/
def matches_model_filter (haystacks : List Str) (model_filter : Str) : Bool :=
  if matches_simple_value haystacks model_filter then true
  else
    let model_tokens := words model_filter
    if model_tokens.isEmpty then false
    else
      let chassis_tokens := model_tokens.filter token_has_letters_and_digits
      if !chassis_tokens.isEmpty then
        chassis_tokens.any (fun token => matches_simple_value haystacks token)
      else
        let meaningful_tokens := model_tokens.filter is_meaningful_token
        if meaningful_tokens.isEmpty then false
        else
          decide (meaningful_tokens.length ≤
            2 * meaningful_tokens.countP (fun token => matches_simple_value haystacks token))

/-- Model of `matches_engine_filter`. -/
def matches_engine_filter (haystacks : List Str) (engine_filter : Str) : Bool :=
  if matches_simple_value haystacks engine_filter then true
  else
    let compact_filter := replace_spaces engine_filter
    if compact_filter.isEmpty then false
    else
      haystacks.any (fun haystack =>
        str_contains (replace_spaces haystack) compact_filter)

/-- The shared filter preprocessing: `.as_ref().map(normalize_match_text)
.filter(|v| !v.is_empty())`. -/
def normalized_filter : Option Str → Option Str
  | none => none
  | some value =>
    if (normalize_match_text value).isEmpty then none
    else some (normalize_match_text value)

/-- Model of `matches_filters`: each provided (and non-empty after normalization)
filter must match; absent or empty-normalizing filters impose no constraint. -/
def matches_filters (item : NormalizedMod) (query : ModsQuery) : Bool :=
  let haystacks := build_search_haystacks item
  (match normalized_filter query.make with
   | none => true
   | some make_filter => matches_simple_value haystacks make_filter)
  && (match normalized_filter query.model with
      | none => true
      | some model_filter => matches_model_filter haystacks model_filter)
  && (match normalized_filter query.engine with
      | none => true
      | some engine_filter => matches_engine_filter haystacks engine_filter)

/-- The boolean value, on one stored row's `search_text`/`search_compact`
fields, of the SQL `WHERE` conditions that `query_mods_from_db` builds
(`LIKE '%x%'` is substring containment: every bound pattern is normalized
text, which contains no SQL wildcard characters). -/
def query_conditions (st sc : Str) (query : ModsQuery) : Bool :=
  (match normalized_filter query.make with
   | none => true
   | some make_filter => str_contains st make_filter)
  && (match normalized_filter query.model with
      | none => true
      | some model_filter =>
        let model_tokens := words model_filter
        if model_tokens.isEmpty then false
        else
          let chassis_tokens := model_tokens.filter token_has_letters_and_digits
          if !chassis_tokens.isEmpty then
            str_contains st model_filter
              || chassis_tokens.any (fun token => str_contains st token)
          else
            let meaningful_tokens := model_tokens.filter is_meaningful_token
            if meaningful_tokens.isEmpty then false
            else
              str_contains st model_filter
                || decide ((meaningful_tokens.length + 1) / 2 ≤
                    meaningful_tokens.countP (fun token => str_contains st token))
      )
  && (match normalized_filter query.engine with
      | none => true
      | some engine_filter =>
        let compact_filter := replace_spaces engine_filter
        str_contains st engine_filter
          || (!compact_filter.isEmpty && str_contains sc compact_filter))

/-! ### Store Paginator -/

/-- Model of `ScrapeConfig` (the fields the paginator reads; delays and concurrency are
timing-only and do not affect the computed results). -/
structure ScrapeConfig where
  page_limit : Nat
  max_pages : Nat
  max_429_retries : Nat
deriving DecidableEq

/-- The body of the per-page `for` loop of `fetch_store_mods`: push the
normalization of every product whose upstream id is not yet in the seen-set,
recording new ids and counting the newly discovered products.  The `HashSet`
of seen ids is modelled as a list queried by membership. -/
def insert_new (pp : Str → Option Rat) (store : Store) :
    List ShopifyProduct → List NormalizedMod → List Int → Nat →
    List NormalizedMod × List Int × Nat
  | [], collected, seen, new_products => (collected, seen, new_products)
  | product :: rest, collected, seen, new_products =>
    if product.id ∈ seen then insert_new pp store rest collected seen new_products
    else
      insert_new pp store rest (collected ++ [normalize_product pp product store])
        (product.id :: seen) (new_products + 1)

/-- The pagination `loop` of `fetch_store_mods`.  `fetch page` is the outcome
of `fetch_page_payload` for that page (the page's product list, or an upstream
error).  The loop processes pages `1, 2, …` and recurses only while
`page + 1 ≤ max_pages`, so it iterates at most `max_pages + 1` times; `fuel`
is initialized to that bound and can never reach the (behaviourally identical
to the max-pages stop) zero branch. -/
def fetch_pages (pp : Str → Option Rat) (fetch : Nat → Except AppError (List ShopifyProduct))
    (cfg : ScrapeConfig) (store : Store) :
    Nat → Nat → List NormalizedMod → List Int → Except AppError (List NormalizedMod)
  | 0, _, collected, _ => .ok collected
  | fuel + 1, page, collected, seen =>
    match fetch page with
    | .error e => if page = 1 then .error e else .ok collected
    | .ok products =>
      let fetched_count := products.length
      if fetched_count = 0 then .ok collected
      else
        match insert_new pp store products collected seen 0 with
        | (collected', seen', new_products) =>
          if new_products = 0 then .ok collected'
          else if fetched_count < cfg.page_limit then .ok collected'
          else if cfg.max_pages < page + 1 then .ok collected'
          else fetch_pages pp fetch cfg store fuel (page + 1) collected' seen'

/-- Model of `fetch_store_mods`: drive the fetcher from page 1 with empty state. -/
def fetch_store_mods (pp : Str → Option Rat)
    (fetch : Nat → Except AppError (List ShopifyProduct))
    (cfg : ScrapeConfig) (store : Store) : Except AppError (List NormalizedMod) :=
  fetch_pages pp fetch cfg store (cfg.max_pages + 1) 1 [] []

/-! ### Scrape Orchestrator -/

/-- The `while let` accumulation loop of `scrape_and_persist_all_stores`, over
the per-store paginator outcomes in arrival order.  Persistence is performed
on each success; the claims about the aggregate are conditioned on no
persistence failure, so the database effect is not part of this model. -/
def scrape_loop :
    List (Except AppError (List NormalizedMod)) → Nat → Nat → Nat → Nat × Nat × Nat
  | [], stores_succeeded, stores_failed, mods_upserted =>
    (stores_succeeded, stores_failed, mods_upserted)
  | .ok mods :: rest, stores_succeeded, stores_failed, mods_upserted =>
    scrape_loop rest (stores_succeeded + 1) stores_failed (mods_upserted + mods.length)
  | .error _ :: rest, stores_succeeded, stores_failed, mods_upserted =>
    scrape_loop rest stores_succeeded (stores_failed + 1) mods_upserted

/-- The message of the all-stores-failed `Upstream` error. -/
def all_stores_failed_msg : Str :=
  lit ['F', 'a', 'i', 'l', 'e', 'd', ' ', 't', 'o', ' ', 'f', 'e', 't', 'c', 'h',
       ' ', 'p', 'r', 'o', 'd', 'u', 'c', 't', 's', ' ', 'f', 'r', 'o', 'm', ' ',
       'a', 'l', 'l', ' ', 'c', 'o', 'n', 'f', 'i', 'g', 'u', 'r', 'e', 'd', ' ',
       's', 't', 'o', 'r', 'e', 's']

/-- Model of `scrape_and_persist_all_stores` (no persistence failure): `arrivals` is
the list of per-store paginator results in completion order —
`buffer_unordered` yields exactly one completion per configured store, so its
length is the configured store count `stores_total`. -/
def scrape_and_persist_all_stores
    (arrivals : List (Except AppError (List NormalizedMod))) :
    Except AppError ScrapeStats :=
  let stores_total := arrivals.length
  match scrape_loop arrivals 0 0 0 with
  | (stores_succeeded, stores_failed, mods_upserted) =>
    if stores_succeeded = 0 ∧ 0 < stores_failed then
      .error (.upstream all_stores_failed_msg)
    else
      .ok { stores_total, stores_succeeded, stores_failed, mods_upserted }

/-! ### Persistence engine -/

/-- One row of the `normalized_mods` table.  `updated_at` is the freshness
timestamp (`TIMESTAMPTZ`), modelled as a `Nat`. -/
structure DbRow where
  id : Str
  store_id : Str
  title : Str
  images : List Str
  price : Rat
  vendor : Str
  product_type : Str
  tags : List Str
  product_url : Str
  search_text : Str
  search_compact : Str
  updated_at : Nat
deriving DecidableEq

/-- The row a batch record is written as: every content field from the record,
the two derived search fields recomputed, and `updated_at = NOW()` — the
transaction's shared watermark `now`. -/
def mod_to_row (item : NormalizedMod) (now : Nat) : DbRow :=
  let search_text := build_search_text item
  { id := item.id
    store_id := item.store_id
    title := item.title
    images := item.images
    price := item.price
    vendor := item.vendor
    product_type := item.product_type
    tags := item.tags
    product_url := item.product_url
    search_text := search_text
    search_compact := replace_spaces search_text
    updated_at := now }

/-- Model of `INSERT … ON CONFLICT (id) DO UPDATE`: overwrite the row with the same
primary key, or append a fresh row. -/
def upsert_row (table : List DbRow) (row : DbRow) : List DbRow :=
  if table.any (fun old => old.id == row.id) then
    table.map (fun old => if old.id = row.id then row else old)
  else table ++ [row]

/-- Model of `upsert_store_mods`: upsert the whole batch under one shared watermark
`now`, then prune — all of the store's rows when the batch is empty, otherwise
the store's rows whose freshness timestamp is strictly earlier than the
watermark.  Chunking in the source only splits the `INSERT` statements; all
chunks run in the one transaction with the one `NOW()`, so the model upserts
in a single pass. -/
def upsert_store_mods (table : List DbRow) (store_id : Str)
    (mods : List NormalizedMod) (now : Nat) : List DbRow :=
  let upserted := mods.foldl (fun acc item => upsert_row acc (mod_to_row item now)) table
  if mods.isEmpty then
    upserted.filter (fun row => !(row.store_id == store_id))
  else
    upserted.filter (fun row => !(row.store_id == store_id && decide (row.updated_at < now)))

/-! ### Query path -/

/-- Model of `row_to_mod`: project a stored row back to a `NormalizedMod`. -/
def row_to_mod (row : DbRow) : NormalizedMod :=
  { id := row.id
    store_id := row.store_id
    title := row.title
    images := row.images
    price := row.price
    vendor := row.vendor
    product_type := row.product_type
    tags := row.tags
    product_url := row.product_url }

/-- Model of `ORDER BY updated_at DESC` as a relation on rows. -/
def updated_desc (a b : DbRow) : Prop := b.updated_at ≤ a.updated_at

instance : DecidableRel updated_desc := fun a b => Nat.decLe b.updated_at a.updated_at

instance : IsTotal DbRow updated_desc :=
  ⟨fun a b => (Nat.le_total b.updated_at a.updated_at).imp id id⟩

instance : IsTrans DbRow updated_desc :=
  ⟨fun _ _ _ h h' => Nat.le_trans h' h⟩

/-- Model of `query_mods_from_db`: the rows satisfying the pushed-down conditions,
ordered by freshness timestamp descending, decoded to records. -/
def query_mods_from_db (table : List DbRow) (query : ModsQuery) : List NormalizedMod :=
  ((table.filter (fun row => query_conditions row.search_text row.search_compact query)).insertionSort
    updated_desc).map row_to_mod

/-- The message of the missing-filter `BadRequest` error. -/
def filter_required_msg : Str :=
  lit ['A', 't', ' ', 'l', 'e', 'a', 's', 't', ' ', 'o', 'n', 'e', ' ', 'f', 'i',
       'l', 't', 'e', 'r', ' ', 'm', 'u', 's', 't', ' ', 'b', 'e', ' ', 'p', 'r',
       'o', 'v', 'i', 'd', 'e', 'd', ':', ' ', 'm', 'a', 'k', 'e', ',', ' ', 'm',
       'o', 'd', 'e', 'l', ',', ' ', 'o', 'r', ' ', 'e', 'n', 'g', 'i', 'n', 'e']

/-- Model of `get_mods`: reject when no filter is provided — before `ensure_seed_data`
runs, so `seeded` (the table after the seed step, or that step's failure) is
not consulted; otherwise query and answer with the list and its count. -/
def get_mods (seeded : Except AppError (List DbRow)) (query : ModsQuery) :
    Except AppError (List NormalizedMod × Nat) :=
  if query.make = none ∧ query.model = none ∧ query.engine = none then
    .error (.badRequest filter_required_msg)
  else
    match seeded with
    | .error e => .error e
    | .ok table =>
      let filtered := query_mods_from_db table query
      .ok (filtered, filtered.length)

/-! ### Spec-side renderings used by the claims -/

/-- Rendering of the claim "scan variants in upstream order; take the first
variant whose price field parses as a valid decimal; 0.0 if none". -/
def extract_price_claimed (pp : Str → Option Rat) : List ShopifyVariant → Rat
  | [] => 0
  | variant :: rest =>
    match variant.price.bind pp with
    | some value => value
    | none => extract_price_claimed pp rest

/-- What `extract_price` actually computes, stated by direct scan: the first
variant whose price field is *present* is selected; its value if it parses,
otherwise 0.0 (also 0.0 when no variant carries a price field at all). -/
def extract_price_first_present (pp : Str → Option Rat) : List ShopifyVariant → Rat
  | [] => 0
  | variant :: rest =>
    match variant.price with
    | none => extract_price_first_present pp rest
    | some raw => (pp raw).getD 0

/-- A concrete decimal parser for counterexamples: unsigned all-digit strings
(on which it agrees with Rust's `f64` parser; it likewise fails on alphabetic
input). -/
def parse_digits (s : Str) : Option Rat :=
  if s ≠ [] ∧ s.all is_ascii_digit then
    some ((s.foldl (fun acc c => 10 * acc + (c - 48)) 0 : Nat) : Rat)
  else none

/-- Variants whose first price field is present but unparseable while a later
one parses. -/
def c2_variants : List ShopifyVariant :=
  [{ price := some (lit ['a', 'b', 'c']) }, { price := some (lit ['5']) }]

/-! ### C2: price extraction -/

/-- C2 (counterexample): the price the code computes differs from the
claim's "first variant whose price parses" rule on `c2_variants` — the code
selects the first *present* price `"abc"`, fails to parse it and yields 0,
while the claimed rule skips to `"5"`. -/
theorem extract_price_counterexample :
    extract_price parse_digits c2_variants = 0
    ∧ extract_price_claimed parse_digits c2_variants = 5
    ∧ extract_price parse_digits c2_variants ≠ extract_price_claimed parse_digits c2_variants := by
  refine ⟨by decide, by decide, by decide⟩

/-- C2 (amended): for every parser and variant list, the normalizer's price is
obtained from the *first variant whose price field is present*: that value if
it parses, and 0.0 otherwise (also 0.0 when no variant has a price field). -/
theorem extract_price_eq_first_present (pp : Str → Option Rat)
    (variants : List ShopifyVariant) :
    extract_price pp variants = extract_price_first_present pp variants := by
  induction variants with
  | nil => rfl
  | cons variant rest ih =>
    cases h : variant.price with
    | none =>
      simp [extract_price, extract_price_first_present, List.findSome?_cons, h] at ih ⊢
      exact ih
    | some raw =>
      simp [extract_price, extract_price_first_present, List.findSome?_cons, h]

/-! ### C7: retry delay for HTTP 429 -/

/-- C7: the computed retry delay (in milliseconds) is exactly the
`Retry-After` value in seconds clamped to [1, 120] when that header parses,
and otherwise `base_delay_ms * 2^attempt` clamped to [250, 30000]; the
source's saturating `u64` arithmetic never changes the clamped result for any
representable base delay. -/
theorem retry_delay_for_429_spec (retryAfterSecs : Option Nat) (base_ms attempt : Nat)
    (hbase : base_ms ≤ u64_max) :
    (∀ s, retryAfterSecs = some s →
       retry_delay_for_429 retryAfterSecs base_ms attempt = 1000 * min (max s 1) 120)
    ∧ (retryAfterSecs = none →
       retry_delay_for_429 retryAfterSecs base_ms attempt
         = min (max (base_ms * 2 ^ attempt) 250) 30000) := by
  constructor
  · intro s hs
    subst hs
    rfl
  · intro hnone
    subst hnone
    show min (max (min (base_ms * min (2 ^ attempt) u64_max) u64_max) 250) 30000 = _
    have h30 : (30000 : Nat) ≤ u64_max := by norm_num [u64_max]
    rcases le_or_lt (2 ^ attempt) u64_max with h2 | h2
    · rw [min_eq_left h2]
      rcases le_or_lt (base_ms * 2 ^ attempt) u64_max with hb | hb
      · rw [min_eq_left hb]
      · rw [min_eq_right hb.le]
        omega
    · rw [min_eq_right h2.le]
      rcases Nat.eq_zero_or_pos base_ms with hb0 | hb0
      · subst hb0
        simp
      · have hmm : u64_max ≤ base_ms * u64_max := Nat.le_mul_of_pos_left _ hb0
        have hpp : u64_max ≤ base_ms * 2 ^ attempt :=
          le_trans h2.le (Nat.le_mul_of_pos_left _ hb0)
        rw [min_eq_right hmm]
        omega

/-- C7 (witness): both branches of the retry-delay theorem at concrete
inputs — `Retry-After: 5` gives 5000 ms, and attempt 2 at base 1000 ms gives
4000 ms. -/
theorem retry_delay_for_429_spec_witness :
    retry_delay_for_429 (some 5) 1000 0 = 1000 * min (max 5 1) 120
    ∧ retry_delay_for_429 none 1000 2 = min (max (1000 * 2 ^ 2) 250) 30000 :=
  ⟨(retry_delay_for_429_spec (some 5) 1000 0 (by norm_num [u64_max])).1 5 rfl,
   (retry_delay_for_429_spec none 1000 2 (by norm_num [u64_max])).2 rfl⟩

/-! ### C3: scrape job aggregation -/

/-- Whether a per-store outcome succeeded. -/
def is_ok_result : Except AppError (List NormalizedMod) → Bool
  | .ok _ => true
  | .error _ => false

/-- Number of per-store outcomes that succeeded. -/
def ok_count (arrivals : List (Except AppError (List NormalizedMod))) : Nat :=
  arrivals.countP is_ok_result

/-- Number of per-store outcomes that failed. -/
def err_count (arrivals : List (Except AppError (List NormalizedMod))) : Nat :=
  arrivals.countP (fun r => !is_ok_result r)

/-- Total records delivered by the successful stores. -/
def upserted_total (arrivals : List (Except AppError (List NormalizedMod))) : Nat :=
  (arrivals.map (fun r => match r with | .ok mods => mods.length | .error _ => 0)).sum

theorem scrape_loop_spec (arrivals : List (Except AppError (List NormalizedMod)))
    (s f u : Nat) :
    scrape_loop arrivals s f u =
      (s + ok_count arrivals, f + err_count arrivals, u + upserted_total arrivals) := by
  induction arrivals generalizing s f u with
  | nil => simp [scrape_loop, ok_count, err_count, upserted_total]
  | cons head rest ih =>
    cases head with
    | ok mods =>
      simp [scrape_loop, ih, ok_count, err_count, upserted_total, List.countP_cons,
        is_ok_result]
      omega
    | error e =>
      simp [scrape_loop, ih, ok_count, err_count, upserted_total, List.countP_cons,
        is_ok_result]
      omega

/-- C3: with no persistence failure, a scrape job fails (with an
`UpstreamError`) exactly when zero stores succeeded and at least one failed;
every other outcome is `ok` with `stores_total` equal to the configured store
count and the other stats accumulating the per-store outcomes. -/
theorem scrape_and_persist_all_stores_spec
    (arrivals : List (Except AppError (List NormalizedMod))) :
    ((∃ m, scrape_and_persist_all_stores arrivals = .error (.upstream m)) ↔
       (ok_count arrivals = 0 ∧ 0 < err_count arrivals))
    ∧ (∀ stats, scrape_and_persist_all_stores arrivals = .ok stats →
        stats.stores_total = arrivals.length
        ∧ stats.stores_succeeded = ok_count arrivals
        ∧ stats.stores_failed = err_count arrivals
        ∧ stats.mods_upserted = upserted_total arrivals)
    ∧ (¬(ok_count arrivals = 0 ∧ 0 < err_count arrivals) →
        ∃ stats, scrape_and_persist_all_stores arrivals = .ok stats) := by
  have hloop := scrape_loop_spec arrivals 0 0 0
  simp only [Nat.zero_add] at hloop
  unfold scrape_and_persist_all_stores
  rw [hloop]
  by_cases hc : ok_count arrivals = 0 ∧ 0 < err_count arrivals
  · simp only [if_pos hc]
    refine ⟨⟨fun _ => hc, fun _ => ⟨all_stores_failed_msg, rfl⟩⟩, ?_, ?_⟩
    · intro stats h
      exact absurd h (by simp)
    · intro h
      exact absurd hc h
  · simp only [if_neg hc]
    refine ⟨⟨?_, fun h => absurd h hc⟩, ?_, fun _ => ⟨_, rfl⟩⟩
    · rintro ⟨m, h⟩
      exact absurd h (by simp)
    · intro stats h
      injection h with h
      subst h
      exact ⟨rfl, rfl, rfl, rfl⟩

/-- C3 (witness): one failing store and one succeeding store — partial
success — yields `ok` with the accumulated stats. -/
theorem scrape_and_persist_all_stores_spec_witness :
    (¬(ok_count [.error .notFound, .ok []] = 0 ∧ 0 < err_count [.error .notFound, .ok []]) →
      ∃ stats, scrape_and_persist_all_stores [.error .notFound, .ok []] = .ok stats)
    ∧ ¬(ok_count [.error .notFound, .ok []] = 0 ∧ 0 < err_count [.error .notFound, .ok []]) :=
  ⟨(scrape_and_persist_all_stores_spec [.error .notFound, .ok []]).2.2, by decide⟩

/-! ### C4: paginator failure handling -/

theorem fetch_pages_error_step (pp : Str → Option Rat)
    (fetch : Nat → Except AppError (List ShopifyProduct))
    (cfg : ScrapeConfig) (store : Store) {page : Nat} {e : AppError}
    (fuel : Nat) (collected : List NormalizedMod) (seen : List Int)
    (h : fetch page = .error e) :
    fetch_pages pp fetch cfg store (fuel + 1) page collected seen =
      if page = 1 then .error e else .ok collected := by
  simp only [fetch_pages]
  rw [h]

theorem fetch_pages_ok_step (pp : Str → Option Rat)
    (fetch : Nat → Except AppError (List ShopifyProduct))
    (cfg : ScrapeConfig) (store : Store) {page : Nat} {products : List ShopifyProduct}
    (fuel : Nat) (collected : List NormalizedMod) (seen : List Int)
    (h : fetch page = .ok products) :
    fetch_pages pp fetch cfg store (fuel + 1) page collected seen =
      if products.length = 0 then .ok collected
      else
        match insert_new pp store products collected seen 0 with
        | (collected', seen', new_products) =>
          if new_products = 0 then .ok collected'
          else if products.length < cfg.page_limit then .ok collected'
          else if cfg.max_pages < page + 1 then .ok collected'
          else fetch_pages pp fetch cfg store fuel (page + 1) collected' seen' := by
  simp only [fetch_pages]
  rw [h]

/-- C4: a fetch failure on page 1 propagates as the store-level failure; a
fetch failure on any later page makes the loop stop and return everything
collected so far; and whenever page 1 fetches successfully the paginator
cannot fail. -/
theorem fetch_store_mods_failure_spec (pp : Str → Option Rat)
    (fetch : Nat → Except AppError (List ShopifyProduct))
    (cfg : ScrapeConfig) (store : Store) :
    (∀ e, fetch 1 = .error e → fetch_store_mods pp fetch cfg store = .error e)
    ∧ (∀ fuel page collected seen e, 2 ≤ page → fetch page = .error e →
        fetch_pages pp fetch cfg store (fuel + 1) page collected seen = .ok collected)
    ∧ (∀ products, fetch 1 = .ok products →
        ∃ collected, fetch_store_mods pp fetch cfg store = .ok collected) := by
  have later_ok : ∀ fuel page collected seen, 2 ≤ page →
      ∃ c, fetch_pages pp fetch cfg store fuel page collected seen = .ok c := by
    intro fuel
    induction fuel with
    | zero => intro page collected seen _; exact ⟨collected, rfl⟩
    | succ fuel ih =>
      intro page collected seen hpage
      cases hf : fetch page with
      | error e =>
        rw [fetch_pages_error_step pp fetch cfg store fuel collected seen hf,
          if_neg (by omega : ¬page = 1)]
        exact ⟨collected, rfl⟩
      | ok products =>
        rw [fetch_pages_ok_step pp fetch cfg store fuel collected seen hf]
        by_cases h0 : products.length = 0
        · rw [if_pos h0]; exact ⟨collected, rfl⟩
        · rw [if_neg h0]
          rcases hins : insert_new pp store products collected seen 0 with ⟨c', s', n'⟩
          simp only
          by_cases hn : n' = 0
          · rw [if_pos hn]; exact ⟨c', rfl⟩
          · rw [if_neg hn]
            by_cases hlim : products.length < cfg.page_limit
            · rw [if_pos hlim]; exact ⟨c', rfl⟩
            · rw [if_neg hlim]
              by_cases hmax : cfg.max_pages < page + 1
              · rw [if_pos hmax]; exact ⟨c', rfl⟩
              · rw [if_neg hmax]
                exact ih (page + 1) c' s' (by omega)
  refine ⟨?_, ?_, ?_⟩
  · intro e he
    unfold fetch_store_mods
    rw [fetch_pages_error_step pp fetch cfg store cfg.max_pages [] [] he, if_pos rfl]
  · intro fuel page collected seen e hpage he
    rw [fetch_pages_error_step pp fetch cfg store fuel collected seen he,
      if_neg (by omega : ¬page = 1)]
  · intro products hok
    unfold fetch_store_mods
    rw [fetch_pages_ok_step pp fetch cfg store cfg.max_pages [] [] hok]
    by_cases h0 : products.length = 0
    · rw [if_pos h0]; exact ⟨[], rfl⟩
    · rw [if_neg h0]
      rcases hins : insert_new pp store products [] [] 0 with ⟨c', s', n'⟩
      simp only
      by_cases hn : n' = 0
      · rw [if_pos hn]; exact ⟨c', rfl⟩
      · rw [if_neg hn]
        by_cases hlim : products.length < cfg.page_limit
        · rw [if_pos hlim]; exact ⟨c', rfl⟩
        · rw [if_neg hlim]
          by_cases hmax : cfg.max_pages < 1 + 1
          · rw [if_pos hmax]; exact ⟨c', rfl⟩
          · rw [if_neg hmax]
            exact later_ok cfg.max_pages 2 c' s' (by omega)

/-- Demo fixtures for paginator witnesses. -/
def demo_store : Store :=
  { id := lit ['s'], name := lit ['s'], base_url := [], logo_url := none }

/-- The scrape configuration with the documented defaults. -/
def demo_cfg : ScrapeConfig := { page_limit := 250, max_pages := 40, max_429_retries := 6 }

/-- C4 (witness): a later-page failure at concrete inputs returns the
collected list. -/
theorem fetch_store_mods_failure_spec_witness :
    fetch_pages (fun _ => none) (fun _ => .error .notFound) demo_cfg demo_store
      (0 + 1) 2 [] [] = .ok [] :=
  (fetch_store_mods_failure_spec (fun _ => none) (fun _ => .error .notFound)
    demo_cfg demo_store).2.1 0 2 [] [] .notFound (by omega) rfl

/-! ### C5: paginator dedup and discovery order -/

/-- The first occurrence (by upstream product id) of each product in a
stream, in stream order, skipping ids already `seen`. -/
def first_occurrences (seen : List Int) : List ShopifyProduct → List ShopifyProduct
  | [] => []
  | product :: rest =>
    if product.id ∈ seen then first_occurrences seen rest
    else product :: first_occurrences (product.id :: seen) rest

/-- The seen-set after scanning a stream. -/
def fo_seen (seen : List Int) : List ShopifyProduct → List Int
  | [] => seen
  | product :: rest =>
    if product.id ∈ seen then fo_seen seen rest
    else fo_seen (product.id :: seen) rest

/-- The product list of a fetched page (empty for a failed fetch; used only
at pages shown to have fetched successfully). -/
def ok_products (fetch : Nat → Except AppError (List ShopifyProduct)) (i : Nat) :
    List ShopifyProduct :=
  match fetch i with
  | .ok products => products
  | .error _ => []

/-- The concatenation, in page order, of the products of pages `1..k`. -/
def pages_concat (fetch : Nat → Except AppError (List ShopifyProduct)) : Nat →
    List ShopifyProduct
  | 0 => []
  | k + 1 => pages_concat fetch k ++ ok_products fetch (k + 1)

theorem insert_new_eq_first_occurrences (pp : Str → Option Rat) (store : Store) :
    ∀ (products : List ShopifyProduct) (collected : List NormalizedMod)
      (seen : List Int) (n : Nat),
      insert_new pp store products collected seen n =
        (collected ++ (first_occurrences seen products).map
            (fun p => normalize_product pp p store),
         fo_seen seen products,
         n + (first_occurrences seen products).length) := by
  intro products
  induction products with
  | nil => intro collected seen n; simp [insert_new, first_occurrences, fo_seen]
  | cons product rest ih =>
    intro collected seen n
    by_cases hmem : product.id ∈ seen
    · simp [insert_new, first_occurrences, fo_seen, hmem, ih]
    · simp [insert_new, first_occurrences, fo_seen, hmem, ih]
      omega

theorem first_occurrences_append (a b : List ShopifyProduct) :
    ∀ seen, first_occurrences seen (a ++ b) =
      first_occurrences seen a ++ first_occurrences (fo_seen seen a) b := by
  induction a with
  | nil => intro seen; simp [first_occurrences, fo_seen]
  | cons product rest ih =>
    intro seen
    by_cases hmem : product.id ∈ seen
    · simp [first_occurrences, fo_seen, hmem, ih]
    · simp [first_occurrences, fo_seen, hmem, ih]

theorem fo_seen_append (a b : List ShopifyProduct) :
    ∀ seen, fo_seen seen (a ++ b) = fo_seen (fo_seen seen a) b := by
  induction a with
  | nil => intro seen; simp [fo_seen]
  | cons product rest ih =>
    intro seen
    by_cases hmem : product.id ∈ seen
    · simp [fo_seen, hmem, ih]
    · simp [fo_seen, hmem, ih]

theorem first_occurrences_nodup (stream : List ShopifyProduct) :
    ∀ seen, ((first_occurrences seen stream).map (fun p => p.id)).Nodup
      ∧ ∀ i ∈ (first_occurrences seen stream).map (fun p => p.id), i ∉ seen := by
  induction stream with
  | nil => intro seen; simp [first_occurrences]
  | cons product rest ih =>
    intro seen
    by_cases hmem : product.id ∈ seen
    · simpa [first_occurrences, hmem] using ih seen
    · have ih' := ih (product.id :: seen)
      simp only [first_occurrences, if_neg hmem, List.map_cons, List.nodup_cons,
        List.mem_cons]
      refine ⟨⟨fun hin => ?_, ih'.1⟩, fun i hi => ?_⟩
      · exact (ih'.2 product.id hin) (by simp)
      · rcases hi with hi | hi
        · rw [hi]; exact hmem
        · intro hseen
          exact (ih'.2 i hi) (by simp [hseen])

theorem fetch_pages_discovery (pp : Str → Option Rat)
    (fetch : Nat → Except AppError (List ShopifyProduct))
    (cfg : ScrapeConfig) (store : Store) :
    ∀ (fuel q : Nat) (r : List NormalizedMod),
      (∀ i, 1 ≤ i → i ≤ q → ∃ ps, fetch i = .ok ps) →
      fetch_pages pp fetch cfg store fuel (q + 1)
        ((first_occurrences [] (pages_concat fetch q)).map
          (fun p => normalize_product pp p store))
        (fo_seen [] (pages_concat fetch q)) = .ok r →
      ∃ k, (∀ i, 1 ≤ i → i ≤ k → ∃ ps, fetch i = .ok ps)
        ∧ r = (first_occurrences [] (pages_concat fetch k)).map
            (fun p => normalize_product pp p store) := by
  intro fuel
  induction fuel with
  | zero =>
    intro q r hok hrun
    refine ⟨q, hok, ?_⟩
    injection hrun with hrun
    exact hrun.symm
  | succ fuel ih =>
    intro q r hok hrun
    cases hf : fetch (q + 1) with
    | error e =>
      rw [fetch_pages_error_step pp fetch cfg store fuel _ _ hf] at hrun
      by_cases hq : q + 1 = 1
      · rw [if_pos hq] at hrun
        exact absurd hrun (by simp)
      · rw [if_neg hq] at hrun
        injection hrun with hrun
        exact ⟨q, hok, hrun.symm⟩
    | ok products =>
      have hpage : ok_products fetch (q + 1) = products := by
        simp [ok_products, hf]
      have hconcat : pages_concat fetch (q + 1) = pages_concat fetch q ++ products := by
        simp [pages_concat, hpage]
      have hok' : ∀ i, 1 ≤ i → i ≤ q + 1 → ∃ ps, fetch i = .ok ps := by
        intro i h1 h2
        rcases Nat.lt_or_ge i (q + 1) with hlt | hge
        · exact hok i h1 (by omega)
        · have : i = q + 1 := by omega
          exact ⟨products, this ▸ hf⟩
      have hcoll : (first_occurrences [] (pages_concat fetch q)).map
            (fun p => normalize_product pp p store)
            ++ (first_occurrences (fo_seen [] (pages_concat fetch q)) products).map
              (fun p => normalize_product pp p store)
          = (first_occurrences [] (pages_concat fetch (q + 1))).map
              (fun p => normalize_product pp p store) := by
        rw [hconcat, first_occurrences_append, List.map_append]
      have hseen : fo_seen (fo_seen [] (pages_concat fetch q)) products
          = fo_seen [] (pages_concat fetch (q + 1)) := by
        rw [hconcat, fo_seen_append]
      rw [fetch_pages_ok_step pp fetch cfg store fuel _ _ hf] at hrun
      by_cases h0 : products.length = 0
      · rw [if_pos h0] at hrun
        injection hrun with hrun
        exact ⟨q, hok, hrun.symm⟩
      · rw [if_neg h0,
          insert_new_eq_first_occurrences pp store products _ _ 0] at hrun
        simp only at hrun
        rw [hcoll, hseen] at hrun
        by_cases hn : 0 + (first_occurrences (fo_seen [] (pages_concat fetch q)) products).length = 0
        · rw [if_pos hn] at hrun
          injection hrun with hrun
          exact ⟨q + 1, hok', hrun.symm⟩
        · rw [if_neg hn] at hrun
          by_cases hlim : products.length < cfg.page_limit
          · rw [if_pos hlim] at hrun
            injection hrun with hrun
            exact ⟨q + 1, hok', hrun.symm⟩
          · rw [if_neg hlim] at hrun
            by_cases hmax : cfg.max_pages < q + 1 + 1
            · rw [if_pos hmax] at hrun
              injection hrun with hrun
              exact ⟨q + 1, hok', hrun.symm⟩
            · rw [if_neg hmax] at hrun
              exact ih (q + 1) r hok' hrun

/-- C5: every successful paginator run returns exactly the normalizations of
the first occurrence (by upstream product id) of each product in the
concatenation, in page order, of the successfully fetched pages `1..k` —
discovery order is preserved — and the upstream ids of that output contain no
duplicate. -/
theorem fetch_store_mods_dedup_spec (pp : Str → Option Rat)
    (fetch : Nat → Except AppError (List ShopifyProduct))
    (cfg : ScrapeConfig) (store : Store) (r : List NormalizedMod)
    (hrun : fetch_store_mods pp fetch cfg store = .ok r) :
    ∃ k, (∀ i, 1 ≤ i → i ≤ k → ∃ ps, fetch i = .ok ps)
      ∧ r = (first_occurrences [] (pages_concat fetch k)).map
          (fun p => normalize_product pp p store)
      ∧ ((first_occurrences [] (pages_concat fetch k)).map (fun p => p.id)).Nodup := by
  have h := fetch_pages_discovery pp fetch cfg store (cfg.max_pages + 1) 0 r
    (by intro i h1 h2; omega)
    (by simpa [pages_concat, first_occurrences, fo_seen] using hrun)
  rcases h with ⟨k, hok, hr⟩
  exact ⟨k, hok, hr, (first_occurrences_nodup (pages_concat fetch k) []).1⟩

/-- A fetch oracle whose every page is an empty product list. -/
def demo_fetch : Nat → Except AppError (List ShopifyProduct) := fun _ => .ok []

/-- C5 (witness): the theorem applied to a concrete one-page run. -/
theorem fetch_store_mods_dedup_spec_witness :
    ∃ k, (∀ i, 1 ≤ i → i ≤ k → ∃ ps, demo_fetch i = .ok ps)
      ∧ ([] : List NormalizedMod) = (first_occurrences []
            (pages_concat demo_fetch k)).map
          (fun p => normalize_product (fun _ => none) p demo_store)
      ∧ ((first_occurrences [] (pages_concat demo_fetch k)).map
          (fun p => p.id)).Nodup :=
  fetch_store_mods_dedup_spec (fun _ => none) demo_fetch demo_cfg demo_store [] rfl

/-! ### C6: upsert-and-prune persistence -/

theorem mod_to_row_id (m : NormalizedMod) (now : Nat) : (mod_to_row m now).id = m.id := rfl

theorem mod_to_row_store_id (m : NormalizedMod) (now : Nat) :
    (mod_to_row m now).store_id = m.store_id := rfl

theorem mod_to_row_updated_at (m : NormalizedMod) (now : Nat) :
    (mod_to_row m now).updated_at = now := rfl

theorem upsert_row_mem (table : List DbRow) (r r' : DbRow) :
    r' ∈ upsert_row table r ↔ (r' = r ∨ (r' ∈ table ∧ r'.id ≠ r.id)) := by
  unfold upsert_row
  by_cases hany : table.any (fun old => old.id == r.id)
  · rw [if_pos hany]
    rcases List.any_eq_true.mp hany with ⟨w, hw, hwid⟩
    rw [beq_iff_eq] at hwid
    simp only [List.mem_map]
    constructor
    · rintro ⟨old, hold, rfl⟩
      by_cases h : old.id = r.id
      · rw [if_pos h]; exact Or.inl rfl
      · rw [if_neg h]; exact Or.inr ⟨hold, h⟩
    · rintro (rfl | ⟨hmem, hne⟩)
      · exact ⟨w, hw, by rw [if_pos hwid]⟩
      · exact ⟨r', hmem, by rw [if_neg hne]⟩
  · rw [if_neg hany]
    have hnone : ∀ old ∈ table, old.id ≠ r.id := by
      intro old hold
      have := List.any_eq_false.mp (Bool.not_eq_true _ ▸ hany) old hold
      simpa [beq_iff_eq] using this
    simp only [List.mem_append, List.mem_singleton]
    constructor
    · rintro (hmem | rfl)
      · exact Or.inr ⟨hmem, hnone r' hmem⟩
      · exact Or.inl rfl
    · rintro (rfl | ⟨hmem, _⟩)
      · exact Or.inr rfl
      · exact Or.inl hmem

theorem upsert_row_ids_nodup (table : List DbRow) (r : DbRow)
    (h : (table.map (fun x => x.id)).Nodup) :
    ((upsert_row table r).map (fun x => x.id)).Nodup := by
  unfold upsert_row
  by_cases hany : table.any (fun old => old.id == r.id)
  · rw [if_pos hany]
    have : (table.map (fun old => if old.id = r.id then r else old)).map (fun x => x.id)
        = table.map (fun x => x.id) := by
      rw [List.map_map]
      refine List.map_congr_left ?_
      intro old _
      by_cases hid : old.id = r.id
      · simp [hid]
      · simp [hid]
    rw [this]
    exact h
  · rw [if_neg hany]
    have hnotin : r.id ∉ table.map (fun x => x.id) := by
      intro hmem
      rcases List.mem_map.mp hmem with ⟨old, hold, holdid⟩
      have := List.any_eq_false.mp (Bool.not_eq_true _ ▸ hany) old hold
      simp [beq_iff_eq, holdid] at this
    simp [List.nodup_append, h, hnotin]

theorem upsert_fold_mem (now : Nat) :
    ∀ (mods : List NormalizedMod) (table : List DbRow),
      (mods.map (fun m => m.id)).Nodup → ∀ r',
      (r' ∈ mods.foldl (fun acc m => upsert_row acc (mod_to_row m now)) table ↔
        (r' ∈ mods.map (fun m => mod_to_row m now)
          ∨ (r' ∈ table ∧ r'.id ∉ mods.map (fun m => m.id)))) := by
  intro mods
  induction mods with
  | nil => intro table _ r'; simp
  | cons m rest ih =>
    intro table hnodup r'
    rw [List.map_cons, List.nodup_cons] at hnodup
    rcases hnodup with ⟨hm, hrest⟩
    rw [List.foldl_cons, ih (upsert_row table (mod_to_row m now)) hrest r']
    rw [upsert_row_mem, mod_to_row_id]
    simp only [List.map_cons, List.mem_cons]
    constructor
    · rintro (hmem | ⟨(rfl | ⟨hmem, hne⟩), hnot⟩)
      · exact Or.inl (Or.inr hmem)
      · exact Or.inl (Or.inl rfl)
      · exact Or.inr ⟨hmem, by simp [hne, hnot]⟩
    · rintro ((rfl | hmem) | ⟨hmem, hnot⟩)
      · exact Or.inr ⟨Or.inl rfl, by rw [mod_to_row_id]; exact hm⟩
      · exact Or.inl hmem
      · simp only [List.mem_cons, not_or] at hnot
        exact Or.inr ⟨Or.inr ⟨hmem, hnot.1⟩, hnot.2⟩

theorem upsert_fold_ids_nodup (now : Nat) :
    ∀ (mods : List NormalizedMod) (table : List DbRow),
      (table.map (fun x => x.id)).Nodup →
      ((mods.foldl (fun acc m => upsert_row acc (mod_to_row m now)) table).map
        (fun x => x.id)).Nodup := by
  intro mods
  induction mods with
  | nil => intro table h; exact h
  | cons m rest ih =>
    intro table h
    exact ih (upsert_row table (mod_to_row m now)) (upsert_row_ids_nodup table _ h)

/-- The empty-batch branch: all of the store's rows are deleted, other
stores' rows untouched. -/
theorem upsert_store_mods_empty (table : List DbRow) (sid : Str) (now : Nat) :
    upsert_store_mods table sid [] now
      = table.filter (fun row => !(row.store_id == sid)) := by
  simp [upsert_store_mods]

theorem upsert_store_mods_mem (table : List DbRow) (sid : Str)
    (mods : List NormalizedMod) (now : Nat)
    (hne : mods ≠ [])
    (H2 : (mods.map (fun m => m.id)).Nodup)
    (H3 : ∀ m ∈ mods, m.store_id = sid)
    (H4 : ∀ r ∈ table, r.updated_at < now)
    (H5 : ∀ r ∈ table, r.store_id ≠ sid → r.id ∉ mods.map (fun m => m.id)) :
    ∀ r', r' ∈ upsert_store_mods table sid mods now ↔
      (r' ∈ mods.map (fun m => mod_to_row m now)
        ∨ (r' ∈ table ∧ r'.store_id ≠ sid)) := by
  intro r'
  unfold upsert_store_mods
  rw [if_neg (by simpa [List.isEmpty_iff] using hne)]
  rw [List.mem_filter, upsert_fold_mem now mods table H2 r']
  have hbatch_store : ∀ r'' ∈ mods.map (fun m => mod_to_row m now), r''.store_id = sid := by
    rintro r'' hr''
    rcases List.mem_map.mp hr'' with ⟨m, hm, rfl⟩
    rw [mod_to_row_store_id]
    exact H3 m hm
  have hbatch_ts : ∀ r'' ∈ mods.map (fun m => mod_to_row m now), r''.updated_at = now := by
    rintro r'' hr''
    rcases List.mem_map.mp hr'' with ⟨m, _, rfl⟩
    rfl
  constructor
  · rintro ⟨hmem | ⟨hmem, hnot⟩, hkeep⟩
    · exact Or.inl hmem
    · refine Or.inr ⟨hmem, ?_⟩
      intro hsid
      have hts := H4 r' hmem
      simp [hsid, hts] at hkeep
  · rintro (hmem | ⟨hmem, hsid⟩)
    · refine ⟨Or.inl hmem, ?_⟩
      simp [hbatch_ts r' hmem]
    · refine ⟨Or.inr ⟨hmem, H5 r' hmem hsid⟩, ?_⟩
      simp [hsid]

theorem upsert_store_mods_ids_nodup (table : List DbRow) (sid : Str)
    (mods : List NormalizedMod) (now : Nat)
    (H1 : (table.map (fun x => x.id)).Nodup) :
    ((upsert_store_mods table sid mods now).map (fun x => x.id)).Nodup := by
  unfold upsert_store_mods
  have hfold := upsert_fold_ids_nodup now mods table H1
  by_cases h : mods.isEmpty
  · rw [if_pos h]
    exact (List.Sublist.map _ (List.filter_sublist _)).nodup hfold
  · rw [if_neg h]
    exact (List.Sublist.map _ (List.filter_sublist _)).nodup hfold

theorem upsert_store_mods_store_count (table : List DbRow) (sid : Str)
    (mods : List NormalizedMod) (now : Nat)
    (hne : mods ≠ [])
    (H1 : (table.map (fun x => x.id)).Nodup)
    (H2 : (mods.map (fun m => m.id)).Nodup)
    (H3 : ∀ m ∈ mods, m.store_id = sid)
    (H4 : ∀ r ∈ table, r.updated_at < now)
    (H5 : ∀ r ∈ table, r.store_id ≠ sid → r.id ∉ mods.map (fun m => m.id)) :
    ((upsert_store_mods table sid mods now).filter
      (fun r => r.store_id == sid)).length = mods.length := by
  have hmem := upsert_store_mods_mem table sid mods now hne H2 H3 H4 H5
  have hids := upsert_store_mods_ids_nodup table sid mods now H1
  have hres_nodup : (upsert_store_mods table sid mods now).Nodup := hids.of_map _
  have hfilter_nodup :
      ((upsert_store_mods table sid mods now).filter
        (fun r => r.store_id == sid)).Nodup :=
    (List.filter_sublist _).nodup hres_nodup
  have hbatch_ids : ((mods.map (fun m => mod_to_row m now)).map (fun x => x.id))
      = mods.map (fun m => m.id) := by
    rw [List.map_map]; rfl
  have hbatch_nodup : (mods.map (fun m => mod_to_row m now)).Nodup := by
    refine List.Nodup.of_map (fun x => x.id) ?_
    rw [hbatch_ids]
    exact H2
  have hmem2 : ∀ r', r' ∈ (upsert_store_mods table sid mods now).filter
      (fun r => r.store_id == sid) ↔ r' ∈ mods.map (fun m => mod_to_row m now) := by
    intro r'
    rw [List.mem_filter, hmem r', beq_iff_eq]
    constructor
    · rintro ⟨hmem' | ⟨hmem', hsid⟩, hstore⟩
      · exact hmem'
      · exact absurd hstore hsid
    · intro hmem'
      rcases List.mem_map.mp hmem' with ⟨m, hm, rfl⟩
      exact ⟨Or.inl hmem', by rw [mod_to_row_store_id]; exact H3 m hm⟩
  have hperm : ((upsert_store_mods table sid mods now).filter
      (fun r => r.store_id == sid)).Perm (mods.map (fun m => mod_to_row m now)) := by
    refine List.perm_of_nodup_nodup_toFinset_eq hfilter_nodup hbatch_nodup ?_
    ext a
    simp only [List.mem_toFinset]
    exact hmem2 a
  rw [hperm.length_eq, List.length_map]

/-- C6: persisting a batch atomically replaces the store's rows — an empty
batch deletes all of the store's rows; a non-empty batch leaves for that store
exactly the batch's rows stamped with the shared watermark, deleting exactly
the not-re-surfaced rows (those strictly older than the watermark), and other
stores' rows are untouched; hence persisting B1 of N records and then
B1-minus-one-record leaves exactly N-1 rows for the store. -/
theorem upsert_store_mods_spec (table : List DbRow) (sid : Str)
    (mods : List NormalizedMod) (now : Nat)
    (H1 : (table.map (fun x => x.id)).Nodup)
    (H2 : (mods.map (fun m => m.id)).Nodup)
    (H3 : ∀ m ∈ mods, m.store_id = sid)
    (H4 : ∀ r ∈ table, r.updated_at < now)
    (H5 : ∀ r ∈ table, r.store_id ≠ sid → r.id ∉ mods.map (fun m => m.id)) :
    (upsert_store_mods table sid [] now
       = table.filter (fun row => !(row.store_id == sid)))
    ∧ (mods ≠ [] → ∀ r', r' ∈ upsert_store_mods table sid mods now ↔
        (r' ∈ mods.map (fun m => mod_to_row m now)
          ∨ (r' ∈ table ∧ r'.store_id ≠ sid)))
    ∧ (mods ≠ [] →
        ((upsert_store_mods table sid mods now).filter
          (fun r => r.store_id == sid)).length = mods.length)
    ∧ (∀ x t2, x ∈ mods → now < t2 →
        ((upsert_store_mods (upsert_store_mods table sid mods now) sid
            (mods.erase x) t2).filter
          (fun r => r.store_id == sid)).length = mods.length - 1) := by
  refine ⟨upsert_store_mods_empty table sid now,
    fun hne => upsert_store_mods_mem table sid mods now hne H2 H3 H4 H5,
    fun hne => upsert_store_mods_store_count table sid mods now hne H1 H2 H3 H4 H5,
    ?_⟩
  intro x t2 hx ht2
  have hne : mods ≠ [] := List.ne_nil_of_mem hx
  set db1 := upsert_store_mods table sid mods now with hdb1
  set b2 := mods.erase x with hb2
  have hb2_sub : b2.Sublist mods := List.erase_sublist x mods
  have hb2_len : b2.length = mods.length - 1 := List.length_erase_of_mem hx
  have H1' : (db1.map (fun r => r.id)).Nodup :=
    upsert_store_mods_ids_nodup table sid mods now H1
  have H2' : (b2.map (fun m => m.id)).Nodup := (hb2_sub.map _).nodup H2
  have H3' : ∀ m ∈ b2, m.store_id = sid := fun m hm => H3 m (hb2_sub.subset hm)
  have hdb1mem := upsert_store_mods_mem table sid mods now hne H2 H3 H4 H5
  have H4' : ∀ r ∈ db1, r.updated_at < t2 := by
    intro r hr
    rcases (hdb1mem r).mp hr with hmem | ⟨hmem, _⟩
    · rcases List.mem_map.mp hmem with ⟨m, _, rfl⟩
      rw [mod_to_row_updated_at]
      exact ht2
    · exact lt_trans (H4 r hmem) ht2
  have H5' : ∀ r ∈ db1, r.store_id ≠ sid → r.id ∉ b2.map (fun m => m.id) := by
    intro r hr hsid
    rcases (hdb1mem r).mp hr with hmem | ⟨hmem, _⟩
    · rcases List.mem_map.mp hmem with ⟨m, hm, rfl⟩
      exact absurd (by rw [mod_to_row_store_id]; exact H3 m hm) hsid
    · intro hin
      exact H5 r hmem hsid ((hb2_sub.map _).subset hin)
  by_cases hb2e : b2 = []
  · rw [hb2e, upsert_store_mods_empty db1 sid t2]
    have hnil : (db1.filter (fun row => !(row.store_id == sid))).filter
        (fun r => r.store_id == sid) = [] := by
      rw [List.filter_filter]
      refine List.filter_eq_nil_iff.mpr ?_
      intro r _
      cases h : (r.store_id == sid) <;> simp [h]
    rw [hnil]
    have hz : b2.length = 0 := by rw [hb2e]; rfl
    rw [List.length_nil]
    omega
  · rw [upsert_store_mods_store_count db1 sid b2 t2 hb2e H1' H2' H3' H4' H5', hb2_len]

/-- Demo fixtures for the persistence witness. -/
def demo_sid : Str := lit ['s']

def demo_mod_a : NormalizedMod :=
  { id := lit ['a'], store_id := demo_sid, title := [], images := [], price := 0,
    vendor := [], product_type := [], tags := [], product_url := [] }

def demo_mod_b : NormalizedMod :=
  { id := lit ['b'], store_id := demo_sid, title := [], images := [], price := 0,
    vendor := [], product_type := [], tags := [], product_url := [] }

/-- C6 (witness): persisting a 2-record batch and then the batch minus one
record leaves exactly 1 row for the store. -/
theorem upsert_store_mods_spec_witness :
    ((upsert_store_mods
        (upsert_store_mods [] demo_sid [demo_mod_a, demo_mod_b] 1) demo_sid
        ([demo_mod_a, demo_mod_b].erase demo_mod_a) 2).filter
      (fun r => r.store_id == demo_sid)).length
      = [demo_mod_a, demo_mod_b].length - 1 :=
  (upsert_store_mods_spec [] demo_sid [demo_mod_a, demo_mod_b] 1 (by decide)
    (by decide) (by decide) (by decide) (by decide)).2.2.2 demo_mod_a 2 (by decide)
    (by decide)

/-! ### Words and normalization lemmas -/

theorem isInfix_extend_left (l₁ : Str) {w l₂ : Str} (h : w <:+: l₂) : w <:+: l₁ ++ l₂ := by
  rcases h with ⟨s1, t1, rfl⟩
  exact ⟨l₁ ++ s1, t1, by simp⟩

theorem words_go_isInfix :
    ∀ (s cur w : Str), w ∈ words_go cur s → w <:+: (cur.reverse ++ s) := by
  intro s
  induction s with
  | nil =>
    intro cur w hw
    unfold words_go at hw
    by_cases hcur : cur = []
    · rw [if_pos hcur] at hw
      exact absurd hw (List.not_mem_nil w)
    · rw [if_neg hcur] at hw
      rcases List.mem_singleton.mp hw with rfl
      exact ⟨[], [], by simp⟩
  | cons c rest ih =>
    intro cur w hw
    unfold words_go at hw
    by_cases hws : is_ws c
    · rw [if_pos hws] at hw
      by_cases hcur : cur = []
      · rw [if_pos hcur] at hw
        subst hcur
        have h := ih [] w hw
        simp only [List.reverse_nil, List.nil_append] at h ⊢
        exact List.infix_cons h
      · rw [if_neg hcur] at hw
        rcases List.mem_cons.mp hw with rfl | hw
        · exact ⟨[], c :: rest, by simp⟩
        · have h := ih [] w hw
          simp only [List.reverse_nil, List.nil_append] at h
          exact isInfix_extend_left cur.reverse ( List.infix_cons h)
    · rw [if_neg hws] at hw
      have h := ih (c :: cur) w hw
      rw [List.reverse_cons, List.append_assoc] at h
      simpa using h

theorem words_isInfix {s w : Str} (hw : w ∈ words s) : w <:+: s := by
  have h := words_go_isInfix s [] w hw
  simpa using h

theorem words_go_chars :
    ∀ (s cur : Str), (∀ c ∈ cur, is_ws c = false) →
      ∀ w ∈ words_go cur s, w ≠ [] ∧ ∀ c ∈ w, is_ws c = false := by
  intro s
  induction s with
  | nil =>
    intro cur hcur w hw
    unfold words_go at hw
    by_cases hc : cur = []
    · rw [if_pos hc] at hw
      exact absurd hw (List.not_mem_nil w)
    · rw [if_neg hc] at hw
      rcases List.mem_singleton.mp hw with rfl
      refine ⟨by simpa using hc, ?_⟩
      intro c hcmem
      exact hcur c (List.mem_reverse.mp hcmem)
  | cons c rest ih =>
    intro cur hcur w hw
    unfold words_go at hw
    by_cases hws : is_ws c
    · rw [if_pos hws] at hw
      by_cases hc : cur = []
      · rw [if_pos hc] at hw
        exact ih [] (by simp) w hw
      · rw [if_neg hc] at hw
        rcases List.mem_cons.mp hw with rfl | hw
        · refine ⟨by simpa using hc, ?_⟩
          intro d hd
          exact hcur d (List.mem_reverse.mp hd)
        · exact ih [] (by simp) w hw
    · rw [if_neg hws] at hw
      refine ih (c :: cur) ?_ w hw
      intro d hd
      rcases List.mem_cons.mp hd with rfl | hd
      · exact Bool.not_eq_true _ ▸ hws
      · exact hcur d hd

theorem words_chars {s w : Str} (hw : w ∈ words s) :
    w ≠ [] ∧ ∀ c ∈ w, is_ws c = false :=
  words_go_chars s [] (by simp) w hw

theorem words_go_nil (cur : Str) :
    words_go cur [] = if cur = [] then [] else [cur.reverse] := by
  simp only [words_go]

theorem words_go_step_ws {c : Nat} (cur rest : Str) (h : is_ws c = true) :
    words_go cur (c :: rest) =
      if cur = [] then words_go [] rest else cur.reverse :: words_go [] rest := by
  simp only [words_go]
  rw [if_pos h]

theorem words_go_step_not_ws {c : Nat} (cur rest : Str) (h : is_ws c = false) :
    words_go cur (c :: rest) = words_go (c :: cur) rest := by
  simp only [words_go]
  rw [if_neg (by simp [h])]

theorem words_go_append :
    ∀ (w cur s : Str), (∀ c ∈ w, is_ws c = false) →
      words_go cur (w ++ s) = words_go (w.reverse ++ cur) s := by
  intro w
  induction w with
  | nil => intro cur s _; simp
  | cons c wrest ih =>
    intro cur s hchars
    have hc : is_ws c = false := hchars c (List.mem_cons_self c wrest)
    have hrest : ∀ d ∈ wrest, is_ws d = false :=
      fun d hd => hchars d (List.mem_cons_of_mem c hd)
    show words_go cur (c :: (wrest ++ s)) = _
    rw [words_go_step_not_ws cur (wrest ++ s) hc, ih (c :: cur) s hrest]
    congr 1
    simp

theorem words_join_space :
    ∀ (ws : List Str), (∀ w ∈ ws, w ≠ [] ∧ ∀ c ∈ w, is_ws c = false) →
      words (join_space ws) = ws := by
  intro ws
  induction ws with
  | nil => intro _; rfl
  | cons w rest ih =>
    intro hprops
    have hw := hprops w (List.mem_cons_self w rest)
    cases rest with
    | nil =>
      show words_go [] (join_space [w]) = [w]
      have h1 : words_go [] (w ++ []) = words_go (w.reverse ++ []) [] :=
        words_go_append w [] [] hw.2
      rw [List.append_nil, List.append_nil] at h1
      show words_go [] w = [w]
      rw [h1, words_go_nil, if_neg (by simpa using hw.1), List.reverse_reverse]
    | cons w2 rest2 =>
      show words_go [] (w ++ 32 :: join_space (w2 :: rest2)) = w :: w2 :: rest2
      have h1 := words_go_append w [] (32 :: join_space (w2 :: rest2)) hw.2
      rw [List.append_nil] at h1
      rw [h1, words_go_step_ws _ _ (by decide), if_neg (by simpa using hw.1),
        List.reverse_reverse]
      have h2 := ih (fun x hx => hprops x (List.mem_cons_of_mem w hx))
      rw [show words_go [] (join_space (w2 :: rest2)) = words (join_space (w2 :: rest2))
            from rfl, h2]

theorem mem_join_space_isInfix :
    ∀ (ps : List Str) (p : Str), p ∈ ps → p <:+: join_space ps := by
  intro ps
  induction ps with
  | nil => intro p hp; exact absurd hp (List.not_mem_nil p)
  | cons q rest ih =>
    intro p hp
    cases rest with
    | nil =>
      rcases List.mem_singleton.mp hp with rfl
      exact List.infix_rfl
    | cons r rest2 =>
      have hjoin : join_space (q :: r :: rest2) = q ++ 32 :: join_space (r :: rest2) := rfl
      rw [hjoin]
      rcases List.mem_cons.mp hp with rfl | hp
      · exact ⟨[], 32 :: join_space (r :: rest2), by simp⟩
      · exact isInfix_extend_left q ( List.infix_cons (ih p hp))

theorem chars_join_space :
    ∀ (ps : List Str) (c : Nat), c ∈ join_space ps → c = 32 ∨ ∃ p ∈ ps, c ∈ p := by
  intro ps
  induction ps with
  | nil => intro c hc; exact absurd hc (List.not_mem_nil c)
  | cons q rest ih =>
    intro c hc
    cases rest with
    | nil => exact Or.inr ⟨q, List.mem_singleton.mpr rfl, hc⟩
    | cons r rest2 =>
      have hjoin : join_space (q :: r :: rest2) = q ++ 32 :: join_space (r :: rest2) := rfl
      rw [hjoin] at hc
      rcases List.mem_append.mp hc with hc | hc
      · exact Or.inr ⟨q, List.mem_cons_self q _, hc⟩
      · rcases List.mem_cons.mp hc with rfl | hc
        · exact Or.inl rfl
        · rcases ih c hc with h32 | ⟨p, hp, hcp⟩
          · exact Or.inl h32
          · exact Or.inr ⟨p, List.mem_cons_of_mem q hp, hcp⟩

theorem to_lower_idem (c : Nat) :
    to_ascii_lowercase (to_ascii_lowercase c) = to_ascii_lowercase c := by
  unfold to_ascii_lowercase
  split_ifs <;> omega

/-- ASCII-lowercasing fixes every string the normalizer can emit. -/
def lower_fixed (s : Str) : Prop := ∀ c ∈ s, to_ascii_lowercase c = c

theorem mapped_char_fixed (s : Str) :
    ∀ c ∈ s.map (fun c => if is_ascii_alphanumeric c then to_ascii_lowercase c else 32),
      to_ascii_lowercase c = c := by
  intro c hc
  rcases List.mem_map.mp hc with ⟨a, _, rfl⟩
  by_cases ha : is_ascii_alphanumeric a
  · rw [if_pos ha]
    exact to_lower_idem a
  · rw [if_neg ha]
    decide

theorem lower_fixed_normalize (s : Str) : lower_fixed (normalize_match_text s) := by
  intro c hc
  unfold normalize_match_text at hc
  rcases chars_join_space _ c hc with rfl | ⟨p, hp, hcp⟩
  · decide
  · have hinf := words_isInfix hp
    exact mapped_char_fixed s c ( List.IsInfix.subset hinf hcp)

theorem map_to_lower_of_fixed {s : Str} (h : lower_fixed s) :
    s.map to_ascii_lowercase = s := by
  rw [show s.map to_ascii_lowercase = s.map id from List.map_congr_left h, List.map_id]

theorem eq_ignore_ascii_case_iff {a b : Str} (ha : lower_fixed a) (hb : lower_fixed b) :
    eq_ignore_ascii_case a b = true ↔ a = b := by
  unfold eq_ignore_ascii_case
  rw [map_to_lower_of_fixed ha, map_to_lower_of_fixed hb]
  simp

theorem matches_simple_value_iff {hs : List Str} {f : Str}
    (hf : lower_fixed f) (hhs : ∀ h ∈ hs, lower_fixed h) :
    matches_simple_value hs f = true ↔ ∃ h ∈ hs, f <:+: h := by
  unfold matches_simple_value
  rw [List.any_eq_true]
  constructor
  · rintro ⟨h, hmem, hor⟩
    rw [Bool.or_eq_true] at hor
    rcases hor with hcont | htok
    · exact ⟨h, hmem, of_decide_eq_true hcont⟩
    · rw [List.any_eq_true] at htok
      rcases htok with ⟨t, ht, heq⟩
      have hinf_t : t <:+: h := words_isInfix ht
      have hlow_t : lower_fixed t :=
        fun c hc => hhs h hmem c ( List.IsInfix.subset hinf_t hc)
      have heq' : t = f := (eq_ignore_ascii_case_iff hlow_t hf).mp heq
      exact ⟨h, hmem, heq' ▸ hinf_t⟩
  · rintro ⟨h, hmem, hinf⟩
    refine ⟨h, hmem, ?_⟩
    rw [Bool.or_eq_true]
    exact Or.inl (decide_eq_true hinf)

theorem build_search_haystacks_lower_fixed (item : NormalizedMod) :
    ∀ h ∈ build_search_haystacks item, lower_fixed h := by
  intro h hh
  unfold build_search_haystacks at hh
  rcases List.mem_append.mp hh with h1 | h1
  all_goals
    have h2 := List.mem_of_mem_filter h1
    rcases List.mem_map.mp h2 with ⟨src, _, rfl⟩
    exact lower_fixed_normalize src

theorem normalized_filter_some {o : Option Str} {f : Str}
    (h : normalized_filter o = some f) :
    ∃ v, o = some v ∧ f = normalize_match_text v ∧ f ≠ [] := by
  cases o with
  | none => exact absurd h (by simp [normalized_filter])
  | some v =>
    simp only [normalized_filter] at h
    by_cases he : (normalize_match_text v).isEmpty
    · rw [if_pos he] at h
      exact absurd h (by simp)
    · rw [if_neg he] at h
      injection h with h
      subst h
      exact ⟨v, rfl, rfl, fun hn => he (by rw [hn]; rfl)⟩

theorem words_normalize (s : Str) :
    words (normalize_match_text s) =
      words (s.map (fun c => if is_ascii_alphanumeric c then to_ascii_lowercase c else 32)) := by
  unfold normalize_match_text
  exact words_join_space _ (fun w hw => words_chars hw)

theorem words_normalize_ne_nil {s : Str} (h : normalize_match_text s ≠ []) :
    words (normalize_match_text s) ≠ [] := by
  rw [words_normalize]
  intro hnil
  apply h
  unfold normalize_match_text
  rw [hnil]
  rfl

theorem msv_to_search_text {item : NormalizedMod} {f : Str} (hf : lower_fixed f)
    (h : matches_simple_value (build_search_haystacks item) f = true) :
    str_contains (build_search_text item) f = true := by
  rcases (matches_simple_value_iff hf (build_search_haystacks_lower_fixed item)).mp h with
    ⟨hh, hmem, hinf⟩
  unfold build_search_text str_contains
  exact decide_eq_true ( List.IsInfix.trans hinf ( mem_join_space_isInfix _ _ hmem))

theorem replace_spaces_join (ps : List Str) :
    replace_spaces (join_space ps) = (ps.map replace_spaces).flatten := by
  induction ps with
  | nil => rfl
  | cons p rest ih =>
    cases rest with
    | nil => simp [join_space]
    | cons q rest2 =>
      have hjoin : join_space (p :: q :: rest2) = p ++ 32 :: join_space (q :: rest2) := rfl
      rw [hjoin]
      unfold replace_spaces at ih ⊢
      rw [List.filter_append]
      simp only [List.filter_cons, decide_eq_true_eq]
      rw [if_neg (by omega)]
      rw [ih]
      simp

theorem replace_spaces_isInfix_search {item : NormalizedMod} {h : Str}
    (hmem : h ∈ build_search_haystacks item) :
    replace_spaces h <:+: replace_spaces (build_search_text item) := by
  unfold build_search_text
  rw [replace_spaces_join]
  exact List.infix_of_mem_flatten (List.mem_map_of_mem _ hmem)

/-! ### C8: model filter semantics -/

/-- The claim's reading of the model-filter rule: simple match; or at least
one chassis-style token exists and the full filter or some chassis token
substring-matches; or, with no chassis tokens, the meaningful tokens are
non-empty and at least half of them (rounded up) individually
substring-match. -/
def model_claim_prop (hs : List Str) (f : Str) : Prop :=
  matches_simple_value hs f = true
  ∨ ((words f).filter token_has_letters_and_digits ≠ []
      ∧ ((∃ h ∈ hs, f <:+: h)
         ∨ ∃ t ∈ (words f).filter token_has_letters_and_digits, ∃ h ∈ hs, t <:+: h))
  ∨ ((words f).filter token_has_letters_and_digits = []
      ∧ (words f).filter is_meaningful_token ≠ []
      ∧ (((words f).filter is_meaningful_token).length + 1) / 2 ≤
          ((words f).filter is_meaningful_token).countP
            (fun t => decide (∃ h ∈ hs, t <:+: h)))

/-- C8: on the engine's haystack sets (which are normalized by construction)
and any non-empty normalized model filter, the code's model match holds
exactly as the claim describes. -/
theorem matches_model_filter_spec (item : NormalizedMod) (v : Str)
    (hne : normalize_match_text v ≠ []) :
    matches_model_filter (build_search_haystacks item) (normalize_match_text v) = true
      ↔ model_claim_prop (build_search_haystacks item) (normalize_match_text v) := by
  set hs := build_search_haystacks item with hhs_def
  set f := normalize_match_text v with hf_def
  have hhs := build_search_haystacks_lower_fixed item
  have hf : lower_fixed f := lower_fixed_normalize v
  have htok_fixed : ∀ t ∈ words f, lower_fixed t :=
    fun t ht c hc => hf c ( List.IsInfix.subset ( words_isInfix ht) hc)
  have htokens_ne : words f ≠ [] := words_normalize_ne_nil hne
  have hmsv_tok : ∀ t ∈ words f,
      (matches_simple_value hs t = true ↔ ∃ h ∈ hs, t <:+: h) :=
    fun t ht => matches_simple_value_iff (htok_fixed t ht) hhs
  have hmsv_f : matches_simple_value hs f = true ↔ ∃ h ∈ hs, f <:+: h :=
    matches_simple_value_iff hf hhs
  by_cases hsimple : matches_simple_value hs f = true
  · simp [matches_model_filter, hsimple, model_claim_prop]
  · have hsf : matches_simple_value hs f = false := by
      simpa using hsimple
    have hsub : ¬∃ h ∈ hs, f <:+: h := fun hc => hsimple (hmsv_f.mpr hc)
    by_cases hch : (words f).filter token_has_letters_and_digits = []
    · by_cases hme : (words f).filter is_meaningful_token = []
      · simp [matches_model_filter, hsf, List.isEmpty_eq_false.mpr htokens_ne,
          hch, hme, model_claim_prop]
      · have hcount : ((words f).filter is_meaningful_token).countP
              (fun t => matches_simple_value hs t)
            = ((words f).filter is_meaningful_token).countP
              (fun t => decide (∃ h ∈ hs, t <:+: h)) := by
          refine List.countP_congr ?_
          intro t ht
          rw [decide_eq_true_eq]
          exact hmsv_tok t (List.mem_of_mem_filter ht)
        simp only [matches_model_filter, hsf, Bool.false_eq_true, if_false,
          List.isEmpty_eq_false.mpr htokens_ne, hch, List.isEmpty_nil,
          Bool.not_true, List.isEmpty_eq_false.mpr hme, model_claim_prop,
          ne_eq, not_true_eq_false, false_and, false_or, not_false_eq_true,
          true_and, hcount, decide_eq_true_eq]
        constructor
        · intro hlen
          exact ⟨hme, by omega⟩
        · rintro ⟨_, hcnt⟩
          omega
    · have hchE : ((words f).filter token_has_letters_and_digits).isEmpty = false :=
        List.isEmpty_eq_false.mpr hch
      simp only [matches_model_filter, hsf, Bool.false_eq_true, if_false,
        List.isEmpty_eq_false.mpr htokens_ne, hchE, Bool.not_false, if_true,
        List.any_eq_true, model_claim_prop, ne_eq, hch, not_false_eq_true,
        true_and, not_true_eq_false, false_and, or_false]
      constructor
      · rintro ⟨t, ht, hmsvt⟩
        refine Or.inr (Or.inr ⟨t, ht, ?_⟩)
        exact (hmsv_tok t (List.mem_of_mem_filter ht)).mp hmsvt
      · rintro (hc | hsubf | ⟨t, ht, hth⟩)
        · exact absurd hc (by simp [hsf])
        · exact absurd hsubf hsub
        · exact ⟨t, ht, (hmsv_tok t (List.mem_of_mem_filter ht)).mpr hth⟩

/-- Fixture for the model-filter witness: an item whose text contains
`"mkiv"` but not `"supra"`. -/
def c8_item : NormalizedMod :=
  { id := [], store_id := [], title := lit ['m', 'k', 'i', 'v', ' ', 't', 'u', 'r', 'b', 'o'],
    images := [], price := 0, vendor := lit ['H', 'K', 'S'], product_type := [],
    tags := [], product_url := [] }

/-- The raw model filter `"supra mkiv"`. -/
def c8_model_lit : Str := lit ['s', 'u', 'p', 'r', 'a', ' ', 'm', 'k', 'i', 'v']

/-- C8 (witness): the model-filter characterization at the majority-vote
example (`"supra mkiv"` against an item containing only `"mkiv"`). -/
theorem matches_model_filter_spec_witness :
    matches_model_filter (build_search_haystacks c8_item)
        (normalize_match_text c8_model_lit) = true
      ↔ model_claim_prop (build_search_haystacks c8_item)
          (normalize_match_text c8_model_lit) :=
  matches_model_filter_spec c8_item c8_model_lit (by decide)

/-! ### C1: in-memory predicate vs pushdown query conditions -/

theorem msv_token_to_search_text {item : NormalizedMod} {f t : Str}
    (hf : lower_fixed f) (ht : t ∈ words f)
    (h : matches_simple_value (build_search_haystacks item) t = true) :
    str_contains (build_search_text item) t = true :=
  msv_to_search_text
    (fun c hc => hf c ( List.IsInfix.subset ( words_isInfix ht) hc)) h

theorem model_filter_to_pushdown {item : NormalizedMod} {v : Str}
    (hne : normalize_match_text v ≠ [])
    (hmm : matches_model_filter (build_search_haystacks item)
      (normalize_match_text v) = true)
    (htok : (words (normalize_match_text v)).filter token_has_letters_and_digits ≠ []
      ∨ (words (normalize_match_text v)).filter is_meaningful_token ≠ []) :
    (if (words (normalize_match_text v)).isEmpty then false
     else
      if !((words (normalize_match_text v)).filter token_has_letters_and_digits).isEmpty then
        str_contains (build_search_text item) (normalize_match_text v)
          || ((words (normalize_match_text v)).filter token_has_letters_and_digits).any
            (fun token => str_contains (build_search_text item) token)
      else
        if ((words (normalize_match_text v)).filter is_meaningful_token).isEmpty then false
        else
          str_contains (build_search_text item) (normalize_match_text v)
            || decide ((((words (normalize_match_text v)).filter is_meaningful_token).length + 1) / 2 ≤
                ((words (normalize_match_text v)).filter is_meaningful_token).countP
                  (fun token => str_contains (build_search_text item) token))) = true := by
  set hs := build_search_haystacks item with hhs_def
  set f := normalize_match_text v with hf_def
  have hhs := build_search_haystacks_lower_fixed item
  have hf : lower_fixed f := lower_fixed_normalize v
  have htokens_ne : words f ≠ [] := words_normalize_ne_nil hne
  rw [List.isEmpty_eq_false.mpr htokens_ne]
  by_cases hsimple : matches_simple_value hs f = true
  · have hcontains := msv_to_search_text hf hsimple
    by_cases hch : (words f).filter token_has_letters_and_digits = []
    · rw [hch]
      have hme : (words f).filter is_meaningful_token ≠ [] := by
        rcases htok with h | h
        · exact absurd hch h
        · exact h
      simp [List.isEmpty_eq_false.mpr hme, hcontains]
    · simp [List.isEmpty_eq_false.mpr hch, hcontains]
  · have hsf : matches_simple_value hs f = false := by simpa using hsimple
    simp only [matches_model_filter, hsf, Bool.false_eq_true, if_false,
      List.isEmpty_eq_false.mpr htokens_ne] at hmm
    by_cases hch : (words f).filter token_has_letters_and_digits = []
    · rw [hch] at hmm ⊢
      simp only [List.isEmpty_nil, Bool.not_true, Bool.false_eq_true, if_false] at hmm ⊢
      by_cases hme : (words f).filter is_meaningful_token = []
      · rw [hme] at hmm
        simp at hmm
      · rw [List.isEmpty_eq_false.mpr hme] at hmm ⊢
        simp only [Bool.false_eq_true, if_false] at hmm ⊢
        have hcnt : ((words f).filter is_meaningful_token).countP
              (fun t => matches_simple_value hs t)
            ≤ ((words f).filter is_meaningful_token).countP
              (fun t => str_contains (build_search_text item) t) := by
          refine List.countP_mono_left ?_
          intro t ht
          exact msv_token_to_search_text hf (List.mem_of_mem_filter ht)
        rw [decide_eq_true_eq] at hmm
        rw [Bool.or_eq_true]
        refine Or.inr ?_
        rw [decide_eq_true_eq]
        omega
    · rw [List.isEmpty_eq_false.mpr hch] at hmm ⊢
      simp only [Bool.not_false, if_true, Bool.false_eq_true, if_false] at hmm ⊢
      rcases List.any_eq_true.mp hmm with ⟨t, ht, hmsvt⟩
      rw [Bool.or_eq_true]
      refine Or.inr (List.any_eq_true.mpr ⟨t, ht, ?_⟩)
      exact msv_token_to_search_text hf (List.mem_of_mem_filter ht) hmsvt

theorem engine_filter_to_pushdown {item : NormalizedMod} {v : Str}
    (hme : matches_engine_filter (build_search_haystacks item)
      (normalize_match_text v) = true) :
    (str_contains (build_search_text item) (normalize_match_text v)
      || (!(replace_spaces (normalize_match_text v)).isEmpty
          && str_contains (replace_spaces (build_search_text item))
            (replace_spaces (normalize_match_text v)))) = true := by
  set hs := build_search_haystacks item with hhs_def
  set f := normalize_match_text v with hf_def
  have hf : lower_fixed f := lower_fixed_normalize v
  by_cases hsimple : matches_simple_value hs f = true
  · rw [Bool.or_eq_true]
    exact Or.inl (msv_to_search_text hf hsimple)
  · have hsf : matches_simple_value hs f = false := by simpa using hsimple
    simp only [matches_engine_filter, hsf, Bool.false_eq_true, if_false] at hme
    by_cases hcf : (replace_spaces f).isEmpty
    · rw [if_pos hcf] at hme
      exact absurd hme (by simp)
    · rw [if_neg hcf] at hme
      rcases List.any_eq_true.mp hme with ⟨h, hmem, hcont⟩
      rw [Bool.or_eq_true]
      refine Or.inr ?_
      rw [Bool.and_eq_true]
      refine ⟨by simpa using hcf, ?_⟩
      unfold str_contains at hcont ⊢
      refine decide_eq_true ?_
      exact List.IsInfix.trans (of_decide_eq_true hcont)
        (replace_spaces_isInfix_search hmem)

/-- C1 (amended): whenever every provided model filter retains at least one
chassis-style or meaningful token, every record accepted by the in-memory
predicate is accepted by the pushdown query conditions evaluated on the
derived `search_text`/`search_compact` of that record. -/
theorem matching_pushdown_complete (q : ModsQuery) (item : NormalizedMod)
    (hmodel : ∀ f, normalized_filter q.model = some f →
      ((words f).filter token_has_letters_and_digits ≠ []
        ∨ (words f).filter is_meaningful_token ≠ []))
    (hmem : matches_filters item q = true) :
    query_conditions (build_search_text item)
      (replace_spaces (build_search_text item)) q = true := by
  unfold matches_filters at hmem
  rw [Bool.and_eq_true, Bool.and_eq_true] at hmem
  rcases hmem with ⟨⟨hmake, hmodelm⟩, hengine⟩
  unfold query_conditions
  rw [Bool.and_eq_true, Bool.and_eq_true]
  refine ⟨⟨?_, ?_⟩, ?_⟩
  · cases hqm : normalized_filter q.make with
    | none => rfl
    | some fm =>
      rw [hqm] at hmake
      rcases normalized_filter_some hqm with ⟨vm, _, rfl, hfne⟩
      exact msv_to_search_text (lower_fixed_normalize vm) hmake
  · cases hqm : normalized_filter q.model with
    | none => rfl
    | some fm =>
      rw [hqm] at hmodelm
      rcases normalized_filter_some hqm with ⟨vm, _, rfl, hfne⟩
      exact model_filter_to_pushdown hfne hmodelm (hmodel _ hqm)
  · cases hqm : normalized_filter q.engine with
    | none => rfl
    | some fm =>
      rw [hqm] at hengine
      rcases normalized_filter_some hqm with ⟨vm, _, rfl, hfne⟩
      exact engine_filter_to_pushdown hengine

/-- A record whose title ends in `"stage"` and whose vendor starts with
`"2"`, so `search_text = "alpha stage 2 brothers"`. -/
def c1_item : NormalizedMod :=
  { id := [], store_id := [],
    title := lit ['A', 'l', 'p', 'h', 'a', ' ', 'S', 't', 'a', 'g', 'e'],
    images := [], price := 0,
    vendor := lit ['2', ' ', 'B', 'r', 'o', 't', 'h', 'e', 'r', 's'],
    product_type := [], tags := [], product_url := [] }

/-- The query `make = "stage 2"`. -/
def c1_query : ModsQuery :=
  { make := some (lit ['s', 't', 'a', 'g', 'e', ' ', '2']), model := none,
    engine := none }

/-- C1 (counterexample): the two matching forms do not accept the same
records — the filter `make="stage 2"` spans the title/vendor boundary inside
the concatenated `search_text`, so the pushdown conditions accept `c1_item`
while the per-haystack in-memory predicate rejects it. -/
theorem matching_forms_counterexample :
    matches_filters c1_item c1_query = false
    ∧ query_conditions (build_search_text c1_item)
        (replace_spaces (build_search_text c1_item)) c1_query = true :=
  ⟨by decide, by decide⟩

/-- Fixtures for the amended-C1 witness. -/
def c1w_item : NormalizedMod :=
  { id := [], store_id := [],
    title := lit ['X', 'F', 'o', 'r', 'c', 'e', ' ', 'S', 't', 'a', 'g', 'e',
      ' ', '2', ' ', 'I', 'n', 't', 'a', 'k', 'e'],
    images := [], price := 0, vendor := lit ['X', 'F', 'o', 'r', 'c', 'e'],
    product_type := [], tags := [lit ['G', '3', '5']], product_url := [] }

def c1w_query : ModsQuery :=
  { make := some (lit ['x', 'f', 'o', 'r', 'c', 'e']),
    model := some (lit ['g', '3', '5', ' ', 's', 'e', 'd', 'a', 'n']),
    engine := none }

/-- C1 (witness): the amended inclusion at a concrete in-memory match (make
and chassis-style model filters both match). -/
theorem matching_pushdown_complete_witness :
    query_conditions (build_search_text c1w_item)
      (replace_spaces (build_search_text c1w_item)) c1w_query = true :=
  matching_pushdown_complete c1w_query c1w_item
    (by
      intro f h
      have h2 : normalized_filter c1w_query.model
          = some (lit ['g', '3', '5', ' ', 's', 'e', 'd', 'a', 'n']) := by decide
      rw [h2] at h
      injection h with h
      subst h
      decide)
    (by decide)

/-! ### C9: query operation contract -/

theorem get_mods_ok (table : List DbRow) (q : ModsQuery)
    (h : ¬(q.make = none ∧ q.model = none ∧ q.engine = none)) :
    get_mods (.ok table) q
      = .ok (query_mods_from_db table q, (query_mods_from_db table q).length) := by
  unfold get_mods
  rw [if_neg h]

/-- C9: the query operation fails with `BadRequest` exactly when all three
filters are absent — and then it does so whatever the seed step would have
produced, i.e. before any scraping or database work; with at least one filter
present it returns the pushdown-matching rows ordered by freshness timestamp
descending, with their count. -/
theorem get_mods_spec (q : ModsQuery) :
    (∀ seeded, (q.make = none ∧ q.model = none ∧ q.engine = none) →
       get_mods seeded q = .error (.badRequest filter_required_msg))
    ∧ (∀ table : List DbRow,
        ((∃ m, get_mods (.ok table) q = .error (.badRequest m)) ↔
          (q.make = none ∧ q.model = none ∧ q.engine = none)))
    ∧ (¬(q.make = none ∧ q.model = none ∧ q.engine = none) →
        ∀ table : List DbRow, ∃ rows : List DbRow,
          get_mods (.ok table) q = .ok (rows.map row_to_mod, rows.length)
          ∧ List.Sorted updated_desc rows
          ∧ rows.Perm (table.filter
              (fun row => query_conditions row.search_text row.search_compact q))) := by
  refine ⟨?_, ?_, ?_⟩
  · intro seeded hall
    unfold get_mods
    rw [if_pos hall]
  · intro table
    constructor
    · rintro ⟨m, hm⟩
      by_cases hall : q.make = none ∧ q.model = none ∧ q.engine = none
      · exact hall
      · rw [get_mods_ok table q hall] at hm
        exact absurd hm (by simp)
    · intro hall
      refine ⟨filter_required_msg, ?_⟩
      unfold get_mods
      rw [if_pos hall]
  · intro hall table
    refine ⟨(table.filter
        (fun row => query_conditions row.search_text row.search_compact q)).insertionSort
        updated_desc, ?_, ?_, ?_⟩
    · rw [get_mods_ok table q hall]
      have hq : query_mods_from_db table q
          = ((table.filter
              (fun row => query_conditions row.search_text row.search_compact q)).insertionSort
              updated_desc).map row_to_mod := rfl
      rw [hq, List.length_map]
    · exact List.sorted_insertionSort updated_desc _
    · exact List.perm_insertionSort updated_desc _

/-- The query `make = "x"`. -/
def c9_query : ModsQuery := { make := some (lit ['x']), model := none, engine := none }

/-- C9 (witness): the theorem applied at a single-filter query over the empty
table. -/
theorem get_mods_spec_witness :
    ∃ rows : List DbRow,
      get_mods (.ok []) c9_query = .ok (rows.map row_to_mod, rows.length)
      ∧ List.Sorted updated_desc rows
      ∧ rows.Perm (([] : List DbRow).filter
          (fun row => query_conditions row.search_text row.search_compact c9_query)) :=
  (get_mods_spec c9_query).2.2 (by decide) []

/-! ### C10: filters that normalize to the empty string -/

/-- C10: a filter set in which every provided filter normalizes to the empty
string (but at least one is provided) passes the presence check and imposes no
constraint in either matching form: the in-memory predicate accepts every
record, the pushdown conditions accept every stored row, and the query
operation returns all stored rows. -/
theorem empty_normalized_filters_spec (q : ModsQuery) (item : NormalizedMod)
    (st sc : Str) (table : List DbRow)
    (hmake : ∀ v, q.make = some v → normalize_match_text v = [])
    (hmodel : ∀ v, q.model = some v → normalize_match_text v = [])
    (hengine : ∀ v, q.engine = some v → normalize_match_text v = [])
    (hpresent : ¬(q.make = none ∧ q.model = none ∧ q.engine = none)) :
    matches_filters item q = true
    ∧ query_conditions st sc q = true
    ∧ ∃ rows : List DbRow,
        get_mods (.ok table) q = .ok (rows.map row_to_mod, rows.length)
        ∧ rows.Perm table := by
  have hm : normalized_filter q.make = none := by
    cases hq : q.make with
    | none => rfl
    | some v => simp [normalized_filter, List.isEmpty_eq_true, hmake v hq]
  have hmo : normalized_filter q.model = none := by
    cases hq : q.model with
    | none => rfl
    | some v => simp [normalized_filter, List.isEmpty_eq_true, hmodel v hq]
  have he : normalized_filter q.engine = none := by
    cases hq : q.engine with
    | none => rfl
    | some v => simp [normalized_filter, List.isEmpty_eq_true, hengine v hq]
  have hcond : ∀ st' sc' : Str, query_conditions st' sc' q = true := by
    intro st' sc'
    unfold query_conditions
    rw [hm, hmo, he]
    rfl
  refine ⟨?_, hcond st sc, ?_⟩
  · unfold matches_filters
    rw [hm, hmo, he]
    rfl
  · have hfilter : table.filter
        (fun row => query_conditions row.search_text row.search_compact q) = table :=
      List.filter_eq_self.mpr (fun r _ => hcond r.search_text r.search_compact)
    refine ⟨table.insertionSort updated_desc, ?_, List.perm_insertionSort updated_desc table⟩
    rw [get_mods_ok table q hpresent]
    have hq : query_mods_from_db table q
        = (table.insertionSort updated_desc).map row_to_mod := by
      unfold query_mods_from_db
      rw [hfilter]
    rw [hq, List.length_map]

/-- The query `make = "!!!"`: provided, but normalizing to the empty string. -/
def c10_query : ModsQuery :=
  { make := some (lit ['!', '!', '!']), model := none, engine := none }

/-- C10 (witness): `make="!!!"` passes the presence check and matches
everything. -/
theorem empty_normalized_filters_spec_witness :
    matches_filters c8_item c10_query = true
    ∧ query_conditions [] [] c10_query = true
    ∧ ∃ rows : List DbRow,
        get_mods (.ok []) c10_query = .ok (rows.map row_to_mod, rows.length)
        ∧ rows.Perm ([] : List DbRow) :=
  empty_normalized_filters_spec c10_query c8_item [] [] []
    (by
      intro v h
      have h2 : c10_query.make = some (lit ['!', '!', '!']) := rfl
      rw [h2] at h
      injection h with h
      subst h
      decide)
    (fun v h => nomatch h)
    (fun v h => nomatch h)
    (by decide)

end Torque
